import Mathlib

/-!
A shallow embedding of `src/workflow/job.rs` of the iguana-workflow
repository: the job orchestration engine (dependency scheduler, job
executor, container runtime adapter, cleanup stage).

Modelling choices, all justified against the Rust source:

* `HashMap<String, String>` environment maps and the
  `HashMap<String, JobStatus>` status map become association lists
  `List (String × α)` with `listInsert` (overwrite-or-append, the
  semantics of `HashMap::insert` / `extend`) and `listFind`
  (`HashMap::get`).  A real `HashMap` has no duplicate keys; theorems
  that need this take an `envNodup` hypothesis.
* The `LinkedHashMap<String, Job>` of jobs and the
  `HashMap<String, Container>` of services become `List (String × Job)`
  / `List (String × Container)`; for the jobs map the list order is the
  source's guaranteed insertion order, for services it is one fixed
  enumeration of the unordered map.
* Iterating a `HashMap<String, String>` in `run_container`
  (`for (k, v) in env.iter()`) yields the entries in an order the Rust
  standard library leaves unspecified; the embedding takes an oracle
  `ord : EnvMap → EnvMap` giving the enumeration the runtime happened to
  choose, applied to the merged environment.
* Each `Command::new("podman")…` is recorded structurally as an
  `Invocation` carrying exactly the data the source interpolates into
  the argument list.  `debug!("{cmd:?}")` logs every constructed command,
  so the trace records every constructed invocation; `cmd.status()` is
  only reached when `dry_run` is false.
* `cmd.status()` returns `Result<ExitStatus, io::Error>`: an `Err` when
  the process could not be launched, and `Ok(status)` — whatever the
  exit code — when it ran.  The external world is an oracle
  `w : Nat → ExecResult` giving the outcome of the n-th actual process
  execution of the run.  The source checks only `if let Err(e) =
  cmd.status()`, so the embedding, faithfully, ignores the
  `ExecResult.exited` payload.
-/

/-- `JobStatus` from job.rs: available results of a container run. -/
inductive JobStatus where
  | NoStatus
  | Skipped
  | Success
  | Failed
deriving DecidableEq, Repr

/-- Environment mapping, modelling `HashMap<String, String>`. -/
abbrev EnvMap : Type := List (String × String)

/-- Status mapping, modelling `HashMap<String, JobStatus>`. -/
abbrev StatusMap : Type := List (String × JobStatus)

/-- `HashMap::insert` on an association list: overwrite the entry of an
existing key in place, otherwise append a fresh entry. -/
def listInsert {α : Type} (m : List (String × α)) (k : String) (v : α) :
    List (String × α) :=
  if m.any (fun p => p.1 = k) then
    m.map (fun p => if p.1 = k then (k, v) else p)
  else
    m ++ [(k, v)]

/-- `HashMap::get` on an association list. -/
def listFind {α : Type} (m : List (String × α)) (k : String) : Option α :=
  (m.find? (fun p => decide (p.1 = k))).map (fun p => p.2)

/-- A map whose keys are pairwise distinct, as the keys of a real
`HashMap` are. -/
def envNodup (m : EnvMap) : Prop :=
  (List.map Prod.fst (m : List (String × String))).Nodup

instance (m : EnvMap) : Decidable (envNodup m) := by
  unfold envNodup
  infer_instance

/-- `Container` from workflow.rs / job.rs: image reference, optional
environment, optional volume specifications. -/
structure Container where
  image : String
  env : Option EnvMap
  volumes : Option (List String)
deriving DecidableEq

/-- `Job` from workflow.rs: main container, optional services, optional
dependency list, `continue_on_error` flag (`steps` is inert and omitted). -/
structure Job where
  container : Container
  services : Option (List (String × Container))
  needs : Option (List String)
  continue_on_error : Bool
deriving DecidableEq

/-- `WorkflowOptions`: run-wide configuration threaded through every call. -/
structure WorkflowOptions where
  dry_run : Bool
  debug : Bool
  privileged : Bool
deriving DecidableEq

/-- One constructed `podman` command, carrying exactly the data the
source interpolates into the argument vector:
`pull i` is `podman image pull --tls-verify=false -- i`;
`volumeCreate n` is `podman volume create n`;
`run priv vols svc dbg env i` is `podman run --network=host` with the
fixed marker flags, the privileged flags when `priv`, the `--volume=`
flags `vols`, `--tty --interactive` (main) or `--detach` (service by
`svc`), `--rm` unless `dbg`, one `--env=k=v` per entry of `env` in
order, then `-- i`;
`stop n` is `podman container stop --ignore -- n`;
`imageRm i` is `podman image rm --force -- i`. -/
inductive Invocation where
  | pull (image : String)
  | volumeCreate (src : String)
  | run (privileged : Bool) (volumes : List String) (is_service : Bool)
      (debug : Bool) (envArgs : EnvMap) (image : String)
  | stop (name : String)
  | imageRm (image : String)
deriving DecidableEq

/-- Outcome of one `cmd.status()` call: the process ran and exited (with
or without success), or could not be launched (`io::Error`, whose display
string is the payload). -/
inductive ExecResult where
  | exited (success : Bool)
  | launchFailure (msg : String)
deriving DecidableEq

/-- The observable state of a run: the constructed (logged) invocations
in order, and how many of them were actually executed. -/
structure RunState where
  trace : List Invocation
  execCount : Nat
deriving DecidableEq

/-- One `debug!("{cmd:?}"); if !dry { cmd.status() … }` block: record the
constructed invocation; unless `dry`, consult the world for the outcome
of this execution, returning an error exactly on launch failure (the
exit status of a launched process is not inspected, as in the source). -/
def execCmd (w : Nat → ExecResult) (inv : Invocation) (dry : Bool)
    (s : RunState) : Except String Unit × RunState :=
  if dry then
    (Except.ok (), { trace := s.trace ++ [inv], execCount := s.execCount })
  else
    match w s.execCount with
    | ExecResult.launchFailure e =>
        (Except.error e, { trace := s.trace ++ [inv], execCount := s.execCount + 1 })
    | ExecResult.exited _ =>
        (Except.ok (), { trace := s.trace ++ [inv], execCount := s.execCount + 1 })

/-- `merge_from_ref` from job.rs: `map.extend(map2)` — every entry of
`m2` inserted into `m`, later entries overwriting earlier ones. -/
def merge_from_ref (m m2 : EnvMap) : EnvMap :=
  (m2 : List (String × String)).foldl (fun acc p => listInsert acc p.1 p.2) m

/-- `prepare_image` from job.rs: build `podman image pull` and, unless
`dry_run`, execute it. -/
def prepare_image (w : Nat → ExecResult) (image : String) (dry_run : Bool)
    (s : RunState) : Except String Unit × RunState :=
  execCmd w (Invocation.pull image) dry_run s

/-- `clean_image` from job.rs: under `debug` do nothing (no command is
even constructed); otherwise build `podman image rm --force` and, unless
`dry_run`, execute it. -/
def clean_image (w : Nat → ExecResult) (image : String)
    (opts : WorkflowOptions) (s : RunState) : Except String Unit × RunState :=
  if opts.debug then
    (Except.ok (), s)
  else
    execCmd w (Invocation.imageRm image) opts.dry_run s

/-- `stop_container` from job.rs: build `podman container stop --ignore`
and, unless `dry_run`, execute it. -/
def stop_container (w : Nat → ExecResult) (name : String)
    (opts : WorkflowOptions) (s : RunState) : Except String Unit × RunState :=
  execCmd w (Invocation.stop name) opts.dry_run s

/-- The volume loop at the top of `run_container`: for each volume
specification, create a named volume from the part before the first `:`
(an early return on launch failure) and collect the `--volume=` argument. -/
def volumeLoop (w : Nat → ExecResult) (dry : Bool) :
    List String → RunState → Except String (List String) × RunState
  | [], s => (Except.ok [], s)
  | v :: rest, s =>
    let src := (v.splitOn ":").headD ""
    match execCmd w (Invocation.volumeCreate src) dry s with
    | (Except.error e, s1) => (Except.error e, s1)
    | (Except.ok _, s1) =>
      match volumeLoop w dry rest s1 with
      | (Except.error e, s2) => (Except.error e, s2)
      | (Except.ok vols, s2) => (Except.ok (("--volume=" ++ v) :: vols), s2)

/-- `run_container` from job.rs: create the declared volumes, then build
the `podman run` command (service containers detached, the main
container interactive; `--rm` unless debug; one `--env=k=v` argument per
entry of `env`, enumerated in the unspecified `HashMap` iteration order
given by the oracle `ord`) and, unless `dry_run`, execute it. -/
def run_container (w : Nat → ExecResult) (ord : EnvMap → EnvMap)
    (container : Container) (is_service : Bool) (env : EnvMap)
    (opts : WorkflowOptions) (s : RunState) : Except String Unit × RunState :=
  match volumeLoop w opts.dry_run (container.volumes.getD []) s with
  | (Except.error e, s1) => (Except.error e, s1)
  | (Except.ok vols, s1) =>
      execCmd w
        (Invocation.run opts.privileged vols is_service opts.debug
          (ord env) container.image)
        opts.dry_run s1

/-- The environment merge of `do_job` (both at lines 163–169 for a
service and 192–200 for the main container): a fresh map, extended by
the inherited environment when present, then by the container's own
environment when present. -/
def mergeEnvOpt (env_inherited : Option EnvMap) (cenv : Option EnvMap) :
    EnvMap :=
  let env0 : EnvMap := []
  let env1 := match env_inherited with
    | some e => merge_from_ref env0 e
    | none => env0
  match cenv with
  | some e => merge_from_ref env1 e
  | none => env1

/-- The service loop of `do_job`: for each service, prepare its image
(on failure clear `services_ok` and continue with the next service),
merge its environment and start it detached (on failure clear
`services_ok`); the loop never aborts early. -/
def serviceLoop (w : Nat → ExecResult) (ord : EnvMap → EnvMap)
    (env_inherited : Option EnvMap) (opts : WorkflowOptions) :
    List (String × Container) → Bool → RunState → Bool × RunState
  | [], ok, s => (ok, s)
  | (_, sc) :: rest, ok, s =>
    match prepare_image w sc.image opts.dry_run s with
    | (Except.error _, s1) => serviceLoop w ord env_inherited opts rest false s1
    | (Except.ok _, s1) =>
      let env := mergeEnvOpt env_inherited sc.env
      match run_container w ord sc true env opts s1 with
      | (Except.ok _, s2) => serviceLoop w ord env_inherited opts rest ok s2
      | (Except.error _, s2) => serviceLoop w ord env_inherited opts rest false s2

/-- `do_job` from job.rs: fail at once when the main image is empty;
run the service loop; fail naming the job when any service failed;
prepare the main image; merge the main environment and run the main
container interactively.  (The source's `match` on `job.services` with
an empty `None` arm is folded into looping over `job.services.getD []`:
both leave `services_ok` true and the state untouched when there are no
services.) -/
def do_job (w : Nat → ExecResult) (ord : EnvMap → EnvMap) (name : String)
    (job : Job) (env_inherited : Option EnvMap) (opts : WorkflowOptions)
    (s : RunState) : Except String Unit × RunState :=
  let image := job.container.image
  if image.length = 0 then
    (Except.error ("No image specified for job " ++ name), s)
  else
    let r := serviceLoop w ord env_inherited opts (job.services.getD []) true s
    if r.1 = false then
      (Except.error ("Service container for job '" ++ name ++ "' failed"), r.2)
    else
      match prepare_image w image opts.dry_run r.2 with
      | (Except.error e, s2) =>
          (Except.error ("Preparation of container '" ++ name ++ "' failed: " ++ e), s2)
      | (Except.ok _, s2) =>
        let env := mergeEnvOpt env_inherited job.container.env
        match run_container w ord job.container false env opts s2 with
        | (Except.error e, s3) =>
            (Except.error ("Job container '" ++ image ++ "' start failed: " ++ e), s3)
        | (Except.ok _, s3) => (Except.ok (), s3)

/-- `clean_job` from job.rs: for every service stop its container (by
image reference) and remove its image, logging but swallowing failures;
finally remove the main job's image, returning that last result.  (The
source's `match` on `job.services` with an empty `None` arm is folded
into iterating `job.services.getD []`; `cleanServiceStep` is the loop
body: stop the service container by its image reference, then remove its
image, both failures swallowed.) -/
def cleanServiceStep (w : Nat → ExecResult) (opts : WorkflowOptions)
    (st : RunState) (p : String × Container) : RunState :=
  let st1 := (stop_container w p.2.image opts st).2
  (clean_image w p.2.image opts st1).2

def clean_job (w : Nat → ExecResult) (job : Job) (opts : WorkflowOptions)
    (s : RunState) : Except String Unit × RunState :=
  let s1 := (job.services.getD []).foldl (cleanServiceStep w opts) s
  clean_image w job.container.image opts s1

/-- The dependency check of `do_jobs` (lines 249–262): `skip` becomes
true exactly when some listed dependency has recorded status `Failed`
(a dependency missing from the map only warns). -/
def needsSkip (st : StatusMap) : Option (List String) → Bool
  | none => false
  | some needs =>
      needs.any (fun need =>
        match listFind st need with
        | some JobStatus.Failed => true
        | _ => false)

/-- `do_jobs` from job.rs: iterate the jobs in declared order; insert
`NoStatus` on visiting a job; skip (recording `Skipped`) when a
dependency failed; otherwise run the job, record `Success` or `Failed`,
abort returning the error when a failure is not continuable, and
otherwise clean up (cleanup failures only logged) and loop. -/
def do_jobs (w : Nat → ExecResult) (ord : EnvMap → EnvMap) :
    List (String × Job) → StatusMap → Option EnvMap → WorkflowOptions →
    RunState → Except String StatusMap × RunState
  | [], st, _, _, s => (Except.ok st, s)
  | (name, job) :: rest, st, env, opts, s =>
    let st0 := listInsert st name JobStatus.NoStatus
    if needsSkip st0 job.needs then
      do_jobs w ord rest (listInsert st0 name JobStatus.Skipped) env opts s
    else
      match do_job w ord name job env opts s with
      | (Except.ok _, s1) =>
          do_jobs w ord rest (listInsert st0 name JobStatus.Success) env opts
            ((clean_job w job opts s1).2)
      | (Except.error e, s1) =>
          if job.continue_on_error then
            do_jobs w ord rest (listInsert st0 name JobStatus.Failed) env opts
              ((clean_job w job opts s1).2)
          else
            (Except.error e, s1)

/-- The status `do_jobs` records for the job at the head of the list in
the iteration that visits it: `Skipped` when a dependency failed,
otherwise `Success` or `Failed` by the result of `do_job`. -/
def visitStatus (w : Nat → ExecResult) (ord : EnvMap → EnvMap)
    (name : String) (job : Job) (st : StatusMap) (env : Option EnvMap)
    (opts : WorkflowOptions) (s : RunState) : JobStatus :=
  if needsSkip (listInsert st name JobStatus.NoStatus) job.needs then
    JobStatus.Skipped
  else
    match (do_job w ord name job env opts s).1 with
    | Except.ok _ => JobStatus.Success
    | Except.error _ => JobStatus.Failed

/-! Helper lemmas about the association-list map operations. -/

theorem find_map_replace {α : Type} (m : List (String × α)) (k : String) (v : α)
    (h : m.any (fun p => p.1 = k) = true) :
    (m.map (fun p => if p.1 = k then (k, v) else p)).find?
        (fun p => decide (p.1 = k)) = some (k, v) := by
  induction m with
  | nil => simp at h
  | cons a t ih =>
    by_cases hk : a.1 = k
    · simp only [List.map_cons, if_pos hk]
      exact List.find?_cons_of_pos _ (by simp)
    · simp only [List.any_cons, Bool.or_eq_true, decide_eq_true_eq] at h
      rcases h with h | h
      · exact absurd h hk
      · simp only [List.map_cons, if_neg hk]
        rw [List.find?_cons_of_neg _ (by simpa using hk)]
        exact ih h

theorem find_not_mem {α : Type} (m : List (String × α)) (k : String)
    (h : m.any (fun p => p.1 = k) = false) :
    m.find? (fun p => decide (p.1 = k)) = none := by
  induction m with
  | nil => rfl
  | cons a t ih =>
    simp only [List.any_cons, Bool.or_eq_false_iff, decide_eq_false_iff_not] at h
    rw [List.find?_cons_of_neg _ (by simpa using h.1)]
    exact ih (by simpa using h.2)

theorem listFind_listInsert_self {α : Type} (m : List (String × α)) (k : String) (v : α) :
    listFind (listInsert m k v) k = some v := by
  unfold listFind listInsert
  by_cases h : m.any (fun p => p.1 = k) = true
  · rw [if_pos h, find_map_replace m k v h]
    rfl
  · rw [if_neg h, List.find?_append, find_not_mem m k (Bool.eq_false_iff.mpr h)]
    simp [List.find?]

theorem find_map_replace_other {α : Type} (t : List (String × α)) (k k' : String)
    (v : α) (h : k' ≠ k) :
    (t.map (fun p => if p.1 = k then (k, v) else p)).find?
        (fun p => decide (p.1 = k')) = t.find? (fun p => decide (p.1 = k')) := by
  induction t with
  | nil => rfl
  | cons a t ih =>
    by_cases hk : a.1 = k
    · have h1 : decide ((k, v).1 = k') = false := by simp [Ne.symm h]
      have h2 : decide (a.1 = k') = false := by simp [hk, Ne.symm h]
      simp only [List.map_cons, if_pos hk, List.find?, h1, h2]
      exact ih
    · simp only [List.map_cons, if_neg hk, List.find?]
      cases hd : (decide (a.1 = k') : Bool) with
      | true => simp only [hd]
      | false => simp only [hd]; exact ih

theorem listFind_listInsert_other {α : Type} (m : List (String × α)) (k k' : String)
    (v : α) (h : k' ≠ k) : listFind (listInsert m k v) k' = listFind m k' := by
  unfold listFind listInsert
  by_cases hm : m.any (fun p => p.1 = k) = true
  · rw [if_pos hm, find_map_replace_other m k k' v h]
  · rw [if_neg hm, List.find?_append]
    have hsing : List.find? (fun p => decide (p.1 = k')) [(k, v)] = none := by
      simp [List.find?, Ne.symm h]
    rw [hsing]
    cases m.find? (fun p => decide (p.1 = k')) <;> rfl

theorem needsSkip_iff (st : StatusMap) (ns : List String) :
    needsSkip st (some ns) = true ↔ ∃ n ∈ ns, listFind st n = some JobStatus.Failed := by
  unfold needsSkip
  rw [List.any_eq_true]
  constructor
  · rintro ⟨n, hn, hp⟩
    refine ⟨n, hn, ?_⟩
    revert hp
    cases hf : listFind st n with
    | none => simp
    | some v => cases v <;> simp
  · rintro ⟨n, hn, hp⟩
    exact ⟨n, hn, by rw [hp]⟩

theorem needsSkip_of_mem (st : StatusMap) (nso : Option (List String))
    (h : ∃ n ∈ nso.getD [], listFind st n = some JobStatus.Failed) :
    needsSkip st nso = true := by
  cases nso with
  | none => simp at h
  | some ns => exact (needsSkip_iff st ns).mpr (by simpa using h)

/-! Concrete inputs shared by the witnesses. -/

/-- A world in which every launched process succeeds. -/
def wOk : Nat → ExecResult := fun _ => ExecResult.exited true

/-- A world in which no process can be launched. -/
def wBoom : Nat → ExecResult := fun _ => ExecResult.launchFailure "boom"

/-- Dry-run options. -/
def optsDry : WorkflowOptions := { dry_run := true, debug := false, privileged := false }

/-- Real-run options. -/
def optsReal : WorkflowOptions := { dry_run := false, debug := false, privileged := false }

/-- The empty run state. -/
def s0 : RunState := { trace := [], execCount := 0 }

/-- A plain job with image `img`. -/
def jobImg : Job :=
  { container := { image := "img", env := none, volumes := none },
    services := none, needs := none, continue_on_error := false }

/-- A job depending on job `a`. -/
def jobNeedsA : Job :=
  { container := { image := "img", env := none, volumes := none },
    services := none, needs := some ["a"], continue_on_error := false }

/-- A job whose main container has an empty image reference. -/
def jobNoImage : Job :=
  { container := { image := "", env := none, volumes := none },
    services := none, needs := none, continue_on_error := false }

/-- C1: when some name in the job's `needs` list has recorded status
`Failed` at the moment the scheduler visits the job, the scheduler
records the job's final status as `Skipped` and issues no runtime
invocation for it: the iteration continues on the remaining jobs with
the run state (hence the invocation trace) unchanged. -/
theorem C1_skip_on_failed_dependency (w : Nat → ExecResult) (ord : EnvMap → EnvMap)
    (name : String) (job : Job) (rest : List (String × Job)) (st : StatusMap)
    (env : Option EnvMap) (opts : WorkflowOptions) (s : RunState)
    (h : ∃ need ∈ job.needs.getD [],
      listFind (listInsert st name JobStatus.NoStatus) need = some JobStatus.Failed) :
    do_jobs w ord ((name, job) :: rest) st env opts s =
      do_jobs w ord rest
        (listInsert (listInsert st name JobStatus.NoStatus) name JobStatus.Skipped)
        env opts s ∧
    listFind (listInsert (listInsert st name JobStatus.NoStatus) name JobStatus.Skipped)
        name = some JobStatus.Skipped := by
  have hs : needsSkip (listInsert st name JobStatus.NoStatus) job.needs = true :=
    needsSkip_of_mem _ _ h
  constructor
  · simp only [do_jobs, hs, if_true]
  · exact listFind_listInsert_self _ _ _

/-- Witness for C1: job `b` needs `a`, whose recorded status is `Failed`. -/
theorem C1_witness :
    do_jobs wOk id [("b", jobNeedsA)] [("a", JobStatus.Failed)] none optsDry s0 =
      do_jobs wOk id []
        (listInsert (listInsert [("a", JobStatus.Failed)] "b" JobStatus.NoStatus)
          "b" JobStatus.Skipped) none optsDry s0 ∧
    listFind (listInsert (listInsert [("a", JobStatus.Failed)] "b" JobStatus.NoStatus)
        "b" JobStatus.Skipped) "b" = some JobStatus.Skipped :=
  C1_skip_on_failed_dependency wOk id "b" jobNeedsA [] [("a", JobStatus.Failed)]
    none optsDry s0 (by decide)

/-- C9: a job whose main container image reference is the empty string
fails with an error naming the job, and the run state — hence the
invocation trace — is returned untouched: no runtime invocation (pull,
volume create, run, stop or image remove) is constructed or executed. -/
theorem C9_empty_image (w : Nat → ExecResult) (ord : EnvMap → EnvMap)
    (name : String) (job : Job) (env_inherited : Option EnvMap)
    (opts : WorkflowOptions) (s : RunState) (h : job.container.image = "") :
    do_job w ord name job env_inherited opts s =
      (Except.error ("No image specified for job " ++ name), s) := by
  unfold do_job
  rw [h]
  rfl

/-- Witness for C9 at a concrete input. -/
theorem C9_witness :
    do_job wOk id "a" jobNoImage none optsReal s0 =
      (Except.error ("No image specified for job " ++ "a"), s0) :=
  C9_empty_image wOk id "a" jobNoImage none optsReal s0 rfl

/-- C2: when the executed job fails, `Failed` is recorded for it; with
`continue_on_error` false the run aborts at once and the result is
exactly the job's error — an `Except.error` carrying no status map, so
the accumulated map is discarded; with `continue_on_error` true the
scheduler records `Failed`, cleans up, and proceeds to the next job. -/
theorem C2_failure_policy (w : Nat → ExecResult) (ord : EnvMap → EnvMap)
    (name : String) (job : Job) (rest : List (String × Job)) (st : StatusMap)
    (env : Option EnvMap) (opts : WorkflowOptions) (s : RunState)
    (e : String) (s1 : RunState)
    (hskip : needsSkip (listInsert st name JobStatus.NoStatus) job.needs = false)
    (hrun : do_job w ord name job env opts s = (Except.error e, s1)) :
    (job.continue_on_error = false →
      do_jobs w ord ((name, job) :: rest) st env opts s = (Except.error e, s1)) ∧
    (job.continue_on_error = true →
      do_jobs w ord ((name, job) :: rest) st env opts s =
        do_jobs w ord rest
          (listInsert (listInsert st name JobStatus.NoStatus) name JobStatus.Failed)
          env opts ((clean_job w job opts s1).2)) ∧
    listFind (listInsert (listInsert st name JobStatus.NoStatus) name JobStatus.Failed)
        name = some JobStatus.Failed := by
  refine ⟨fun hc => ?_, fun hc => ?_, listFind_listInsert_self _ _ _⟩ <;>
    simp only [do_jobs, hskip, Bool.false_eq_true, if_false, hrun, hc, if_true]

/-- Witness for C2: the empty-image job fails and, with
`continue_on_error` false, aborts the run with its error. -/
theorem C2_witness :
    (jobNoImage.continue_on_error = false →
      do_jobs wOk id [("a", jobNoImage)] [] none optsReal s0 =
        (Except.error ("No image specified for job " ++ "a"), s0)) ∧
    (jobNoImage.continue_on_error = true →
      do_jobs wOk id [] 
        (listInsert (listInsert [] "a" JobStatus.NoStatus) "a" JobStatus.Failed)
        none optsReal ((clean_job wOk jobNoImage optsReal s0).2) =
      do_jobs wOk id []
        (listInsert (listInsert [] "a" JobStatus.NoStatus) "a" JobStatus.Failed)
        none optsReal ((clean_job wOk jobNoImage optsReal s0).2)) ∧
    listFind (listInsert (listInsert [] "a" JobStatus.NoStatus) "a" JobStatus.Failed)
        "a" = some JobStatus.Failed := by
  have h := C2_failure_policy wOk id "a" jobNoImage [] [] none optsReal s0
    ("No image specified for job " ++ "a") s0 (by decide) rfl
  exact ⟨h.1, fun _ => rfl, h.2.2⟩

/-- C10: the skip predicate is true exactly when some listed dependency
has recorded status `Failed` — a dependency recorded as `Skipped`,
`Success` or `NoStatus` (or absent from the map) never triggers it — and
a visited job whose dependency check finds no `Failed` status is handed
to `do_job` (the scheduler takes the execution branch, so skips do not
cascade). -/
theorem C10_only_failed_triggers_skip (w : Nat → ExecResult) (ord : EnvMap → EnvMap)
    (name : String) (job : Job) (rest : List (String × Job)) (st : StatusMap)
    (env : Option EnvMap) (opts : WorkflowOptions) (s : RunState) (ns : List String)
    (hskip : needsSkip (listInsert st name JobStatus.NoStatus) job.needs = false) :
    (needsSkip st (some ns) = true ↔ ∃ n ∈ ns, listFind st n = some JobStatus.Failed) ∧
    do_jobs w ord ((name, job) :: rest) st env opts s =
      (match do_job w ord name job env opts s with
       | (Except.ok _, s1) =>
           do_jobs w ord rest
             (listInsert (listInsert st name JobStatus.NoStatus) name JobStatus.Success)
             env opts ((clean_job w job opts s1).2)
       | (Except.error e, s1) =>
           if job.continue_on_error then
             do_jobs w ord rest
               (listInsert (listInsert st name JobStatus.NoStatus) name JobStatus.Failed)
               env opts ((clean_job w job opts s1).2)
           else (Except.error e, s1)) := by
  refine ⟨needsSkip_iff st ns, ?_⟩
  simp only [do_jobs, hskip, Bool.false_eq_true, if_false]

/-- Witness for C10: job `b` depends on `a`, recorded `Skipped`; the
check does not skip `b` and the scheduler executes it. -/
theorem C10_witness :
    (needsSkip [("a", JobStatus.Skipped)] (some ["a"]) = true ↔
      ∃ n ∈ ["a"], listFind [("a", JobStatus.Skipped)] n = some JobStatus.Failed) ∧
    do_jobs wOk id [("b", jobNeedsA)] [("a", JobStatus.Skipped)] none optsDry s0 =
      (match do_job wOk id "b" jobNeedsA none optsDry s0 with
       | (Except.ok _, s1) =>
           do_jobs wOk id []
             (listInsert (listInsert [("a", JobStatus.Skipped)] "b" JobStatus.NoStatus)
               "b" JobStatus.Success)
             none optsDry ((clean_job wOk jobNeedsA optsDry s1).2)
       | (Except.error e, s1) =>
           if jobNeedsA.continue_on_error then
             do_jobs wOk id []
               (listInsert (listInsert [("a", JobStatus.Skipped)] "b" JobStatus.NoStatus)
                 "b" JobStatus.Failed)
               none optsDry ((clean_job wOk jobNeedsA optsDry s1).2)
           else (Except.error e, s1)) :=
  C10_only_failed_triggers_skip wOk id "b" jobNeedsA [] [("a", JobStatus.Skipped)]
    none optsDry s0 ["a"] (by decide)

/-- A world in which every process launches and exits unsuccessfully. -/
def wExitFail : Nat → ExecResult := fun _ => ExecResult.exited false

/-- True for the invocations issued by the cleanup stage (`container
stop` and `image rm`). -/
def isCleanupInv : Invocation → Bool
  | Invocation.stop _ => true
  | Invocation.imageRm _ => true
  | _ => false

/-- Counterexample to C4: a single job whose image pull cannot be
launched, with `continue_on_error` false.  The run aborts with the job's
error and the whole trace is the one pull invocation — no `container
stop` or `image rm` was ever constructed, so the Cleanup Stage was not
invoked before the abort. -/
theorem C4_counterexample :
    (do_jobs wBoom id [("a", jobImg)] [] none optsReal s0).1 =
      Except.error ("Preparation of container '" ++ "a" ++ "' failed: " ++ "boom") ∧
    (do_jobs wBoom id [("a", jobImg)] [] none optsReal s0).2.trace =
      [Invocation.pull "img"] ∧
    ((do_jobs wBoom id [("a", jobImg)] [] none optsReal s0).2.trace.all
      (fun inv => !isCleanupInv inv)) = true :=
  ⟨rfl, rfl, rfl⟩

/-- C4 amended: for every executed (not skipped) job, the Cleanup Stage
runs after the job when the job succeeds and when it fails with
`continue_on_error` true; when the job fails and `continue_on_error` is
false the scheduler aborts immediately, returning `do_job`'s state
unchanged — the Cleanup Stage is not invoked for that job. -/
theorem C4_cleanup_after_job (w : Nat → ExecResult) (ord : EnvMap → EnvMap)
    (name : String) (job : Job) (rest : List (String × Job)) (st : StatusMap)
    (env : Option EnvMap) (opts : WorkflowOptions) (s : RunState)
    (hskip : needsSkip (listInsert st name JobStatus.NoStatus) job.needs = false) :
    (∀ u s1, do_job w ord name job env opts s = (Except.ok u, s1) →
      do_jobs w ord ((name, job) :: rest) st env opts s =
        do_jobs w ord rest
          (listInsert (listInsert st name JobStatus.NoStatus) name JobStatus.Success)
          env opts ((clean_job w job opts s1).2)) ∧
    (∀ e s1, do_job w ord name job env opts s = (Except.error e, s1) →
      job.continue_on_error = true →
      do_jobs w ord ((name, job) :: rest) st env opts s =
        do_jobs w ord rest
          (listInsert (listInsert st name JobStatus.NoStatus) name JobStatus.Failed)
          env opts ((clean_job w job opts s1).2)) ∧
    (∀ e s1, do_job w ord name job env opts s = (Except.error e, s1) →
      job.continue_on_error = false →
      do_jobs w ord ((name, job) :: rest) st env opts s = (Except.error e, s1)) := by
  refine ⟨fun u s1 hrun => ?_, fun e s1 hrun hc => ?_, fun e s1 hrun hc => ?_⟩
  · simp only [do_jobs, hskip, Bool.false_eq_true, if_false, hrun]
  · simp only [do_jobs, hskip, Bool.false_eq_true, if_false, hrun, hc, if_true]
  · simp only [do_jobs, hskip, Bool.false_eq_true, if_false, hrun, hc, if_true]

/-- Witness for C4's amended theorem: a dry run of a plain job succeeds
and the scheduler continues into the state left by `clean_job`. -/
theorem C4_witness :
    (∀ u s1, do_job wOk id "a" jobImg none optsDry s0 = (Except.ok u, s1) →
      do_jobs wOk id [("a", jobImg)] [] none optsDry s0 =
        do_jobs wOk id []
          (listInsert (listInsert [] "a" JobStatus.NoStatus) "a" JobStatus.Success)
          none optsDry ((clean_job wOk jobImg optsDry s1).2)) ∧
    (∀ e s1, do_job wOk id "a" jobImg none optsDry s0 = (Except.error e, s1) →
      jobImg.continue_on_error = true →
      do_jobs wOk id [("a", jobImg)] [] none optsDry s0 =
        do_jobs wOk id []
          (listInsert (listInsert [] "a" JobStatus.NoStatus) "a" JobStatus.Failed)
          none optsDry ((clean_job wOk jobImg optsDry s1).2)) ∧
    (∀ e s1, do_job wOk id "a" jobImg none optsDry s0 = (Except.error e, s1) →
      jobImg.continue_on_error = false →
      do_jobs wOk id [("a", jobImg)] [] none optsDry s0 = (Except.error e, s1)) :=
  C4_cleanup_after_job wOk id "a" jobImg [] [] none optsDry s0 (by decide)

/-- The `Result` value the source's `if let Err(e) = cmd.status()`
pattern produces from one execution outcome: an error exactly on launch
failure. -/
def execResultToExcept : ExecResult → Except String Unit
  | ExecResult.launchFailure e => Except.error e
  | ExecResult.exited _ => Except.ok ()

/-- Counterexample to C5: with `dry_run` unset, a runtime process that
launches and exits unsuccessfully is reported as success by every
adapter operation — the exit status is never inspected. -/
theorem C5_counterexample :
    (prepare_image wExitFail "img" false s0).1 = Except.ok () ∧
    (clean_image wExitFail "img" optsReal s0).1 = Except.ok () ∧
    (stop_container wExitFail "img" optsReal s0).1 = Except.ok () ∧
    (run_container wExitFail id { image := "img", env := none, volumes := none }
      false [] optsReal s0).1 = Except.ok () ∧
    (volumeLoop wExitFail false ["v:/data"] s0).1 = Except.ok ["--volume=" ++ "v:/data"] :=
  ⟨rfl, rfl, rfl, rfl, rfl⟩

/-- C5 amended: with `dry_run` unset, every adapter operation returns an
error precisely when its runtime process fails to launch, carrying the
launch error; a process that launches is treated as success whatever its
exit status. -/
theorem C5_launch_failure_only (w : Nat → ExecResult) (ord : EnvMap → EnvMap)
    (c : Container) (is_service : Bool) (env : EnvMap) (opts : WorkflowOptions)
    (img nm v : String) (s : RunState)
    (hdry : opts.dry_run = false) (hdebug : opts.debug = false)
    (hvol : c.volumes = none) :
    (prepare_image w img false s).1 = execResultToExcept (w s.execCount) ∧
    (clean_image w img opts s).1 = execResultToExcept (w s.execCount) ∧
    (stop_container w nm opts s).1 = execResultToExcept (w s.execCount) ∧
    (run_container w ord c is_service env opts s).1 =
      execResultToExcept (w s.execCount) ∧
    (volumeLoop w false [v] s).1 =
      (match w s.execCount with
       | ExecResult.launchFailure e => Except.error e
       | ExecResult.exited _ => Except.ok ["--volume=" ++ v]) := by
  refine ⟨?_, ?_, ?_, ?_, ?_⟩ <;>
    cases hw : w s.execCount <;>
      simp [prepare_image, clean_image, stop_container, run_container, volumeLoop,
        execCmd, execResultToExcept, hdry, hdebug, hvol, hw]

/-- Witness for C5's amended theorem at a concrete input: the pull
launch failure is returned as the operation's error. -/
theorem C5_witness :
    (prepare_image wBoom "img" false s0).1 = execResultToExcept (wBoom s0.execCount) ∧
    (clean_image wBoom "img" optsReal s0).1 = execResultToExcept (wBoom s0.execCount) ∧
    (stop_container wBoom "n" optsReal s0).1 = execResultToExcept (wBoom s0.execCount) ∧
    (run_container wBoom id { image := "img", env := none, volumes := none }
      false [] optsReal s0).1 = execResultToExcept (wBoom s0.execCount) ∧
    (volumeLoop wBoom false ["v:/data"] s0).1 =
      (match wBoom s0.execCount with
       | ExecResult.launchFailure e => Except.error e
       | ExecResult.exited _ => Except.ok ["--volume=" ++ "v:/data"]) :=
  C5_launch_failure_only wBoom id { image := "img", env := none, volumes := none }
    false [] optsReal "img" "n" "v:/data" s0 rfl rfl rfl

/-! Environment-merge characterization. -/

theorem listFind_eq_none_of_not_mem {α : Type} (m : List (String × α)) (k : String)
    (h : k ∉ m.map Prod.fst) : listFind m k = none := by
  unfold listFind
  rw [find_not_mem]
  · rfl
  · rw [List.any_eq_false]
    intro p hp
    simp only [decide_eq_true_eq]
    intro hk
    exact h (hk ▸ List.mem_map_of_mem Prod.fst hp)

theorem listFind_cons {α : Type} (k0 : String) (v0 : α) (t : List (String × α))
    (k : String) :
    listFind ((k0, v0) :: t) k = if k0 = k then some v0 else listFind t k := by
  unfold listFind
  by_cases h : k0 = k
  · rw [List.find?_cons_of_pos _ (by simpa using h), if_pos h]
    rfl
  · rw [List.find?_cons_of_neg _ (by simpa using h), if_neg h]

theorem listFind_merge_from_ref (m2 : EnvMap) (h : envNodup m2) :
    ∀ (m : EnvMap) (k : String),
    listFind (merge_from_ref m m2) k = (listFind m2 k).or (listFind m k) := by
  induction m2 with
  | nil =>
    intro m k
    simp [merge_from_ref, listFind, List.find?]
  | cons p t ih =>
    intro m k
    have hnd : envNodup t := (List.nodup_cons.mp h).2
    have hnm : p.1 ∉ t.map Prod.fst := (List.nodup_cons.mp h).1
    have hstep : merge_from_ref m (p :: t) = merge_from_ref (listInsert m p.1 p.2) t := rfl
    rw [hstep, ih hnd, listFind_cons p.1 p.2 t k]
    by_cases hk : p.1 = k
    · subst hk
      rw [listFind_eq_none_of_not_mem t p.1 hnm, listFind_listInsert_self, if_pos rfl]
      rfl
    · rw [if_neg hk, listFind_listInsert_other m p.1 k p.2 (fun hh => hk hh.symm)]

theorem listFind_mergeEnvOpt (eio ceo : Option EnvMap) (k : String)
    (hei : envNodup (eio.getD [])) (hce : envNodup (ceo.getD [])) :
    listFind (mergeEnvOpt eio ceo) k =
      (listFind (ceo.getD []) k).or (listFind (eio.getD []) k) := by
  have hnil : listFind ([] : EnvMap) k = none := rfl
  cases eio with
  | none =>
    cases ceo with
    | none => rfl
    | some ce =>
      simp only [Option.getD] at hce ⊢
      simp only [mergeEnvOpt]
      rw [listFind_merge_from_ref ce hce [] k]
  | some ei =>
    cases ceo with
    | none =>
      simp only [Option.getD] at hei ⊢
      simp only [mergeEnvOpt]
      rw [listFind_merge_from_ref ei hei [] k, hnil]
      cases listFind ei k <;> rfl
    | some ce =>
      simp only [Option.getD] at hei hce ⊢
      simp only [mergeEnvOpt]
      rw [listFind_merge_from_ref ce hce (merge_from_ref [] ei) k,
          listFind_merge_from_ref ei hei [] k, hnil]
      cases listFind ce k <;> cases listFind ei k <;> rfl

/-! Trace-shape lemmas: what invocations each operation appends. -/

theorem execCmd_trace (w : Nat → ExecResult) (inv : Invocation) (dry : Bool)
    (s : RunState) : ((execCmd w inv dry s).2).trace = s.trace ++ [inv] := by
  unfold execCmd
  cases dry with
  | true => rfl
  | false => cases w s.execCount <;> rfl

theorem volumeLoop_trace (w : Nat → ExecResult) (dry : Bool) (vs : List String) :
    ∀ s : RunState, ∃ t, ((volumeLoop w dry vs s).2).trace = s.trace ++ t ∧
      ∀ inv ∈ t, ∃ n, inv = Invocation.volumeCreate n := by
  induction vs with
  | nil => intro s; exact ⟨[], by simp [volumeLoop], by simp⟩
  | cons v rest ih =>
    intro s
    obtain ⟨r1, s1, hE⟩ :
        ∃ r1 s1, execCmd w (Invocation.volumeCreate ((v.splitOn ":").headD "")) dry s = (r1, s1) :=
      ⟨_, _, rfl⟩
    have hs1 : s1.trace = s.trace ++ [Invocation.volumeCreate ((v.splitOn ":").headD "")] := by
      have := execCmd_trace w (Invocation.volumeCreate ((v.splitOn ":").headD "")) dry s
      rw [hE] at this
      exact this
    simp only [volumeLoop]
    rw [hE]
    cases r1 with
    | error e =>
      exact ⟨[Invocation.volumeCreate ((v.splitOn ":").headD "")], hs1, by simp⟩
    | ok u =>
      obtain ⟨t2, ht2, hall⟩ := ih s1
      obtain ⟨r2, s2, hR⟩ : ∃ r2 s2, volumeLoop w dry rest s1 = (r2, s2) := ⟨_, _, rfl⟩
      rw [hR] at ht2
      refine ⟨Invocation.volumeCreate ((v.splitOn ":").headD "") :: t2, ?_, ?_⟩
      · cases r2 <;> simp only [hR] <;>
          · show s2.trace = s.trace ++ _
            rw [ht2, hs1]
            simp
      · intro inv hi
        rcases List.mem_cons.mp hi with rfl | hi
        · exact ⟨_, rfl⟩
        · exact hall inv hi

theorem run_container_trace (w : Nat → ExecResult) (ord : EnvMap → EnvMap)
    (c : Container) (is_service : Bool) (env : EnvMap) (opts : WorkflowOptions)
    (s : RunState) :
    ∃ t, ((run_container w ord c is_service env opts s).2).trace = s.trace ++ t ∧
      ∀ inv ∈ t, (∃ n, inv = Invocation.volumeCreate n) ∨
        ∃ vols, inv = Invocation.run opts.privileged vols is_service opts.debug
          (ord env) c.image := by
  obtain ⟨tv, htv, hvall⟩ := volumeLoop_trace w opts.dry_run (c.volumes.getD []) s
  obtain ⟨r1, s1, hV⟩ :
      ∃ r1 s1, volumeLoop w opts.dry_run (c.volumes.getD []) s = (r1, s1) := ⟨_, _, rfl⟩
  rw [hV] at htv
  unfold run_container
  rw [hV]
  cases r1 with
  | error e =>
    exact ⟨tv, htv, fun inv hi => Or.inl (hvall inv hi)⟩
  | ok vols =>
    refine ⟨tv ++ [Invocation.run opts.privileged vols is_service opts.debug (ord env) c.image], ?_, ?_⟩
    · rw [execCmd_trace, htv, List.append_assoc]
    · intro inv hi
      rcases List.mem_append.mp hi with hi | hi
      · exact Or.inl (hvall inv hi)
      · rcases List.mem_singleton.mp hi with rfl
        exact Or.inr ⟨vols, rfl⟩

theorem serviceLoop_trace (w : Nat → ExecResult) (ord : EnvMap → EnvMap)
    (ei : Option EnvMap) (opts : WorkflowOptions)
    (svcs : List (String × Container)) :
    ∀ (ok : Bool) (s : RunState),
    ∃ t, ((serviceLoop w ord ei opts svcs ok s).2).trace = s.trace ++ t ∧
      (∀ inv ∈ t, (∃ sc ∈ svcs, inv = Invocation.pull sc.2.image) ∨
        (∃ n, inv = Invocation.volumeCreate n) ∨
        (∃ sc ∈ svcs, ∃ vols, inv = Invocation.run opts.privileged vols true opts.debug
          (ord (mergeEnvOpt ei sc.2.env)) sc.2.image)) ∧
      ∀ sc ∈ svcs, Invocation.pull sc.2.image ∈ t := by
  induction svcs with
  | nil => intro ok s; exact ⟨[], by simp [serviceLoop], by simp, by simp⟩
  | cons p rest ih =>
    intro ok s
    obtain ⟨r1, s1, hP⟩ :
        ∃ r1 s1, prepare_image w p.2.image opts.dry_run s = (r1, s1) := ⟨_, _, rfl⟩
    have hs1 : s1.trace = s.trace ++ [Invocation.pull p.2.image] := by
      have := execCmd_trace w (Invocation.pull p.2.image) opts.dry_run s
      unfold prepare_image at hP
      rw [hP] at this
      exact this
    cases r1 with
    | error e =>
      simp only [serviceLoop, hP]
      obtain ⟨t2, ht2, hall, hpull⟩ := ih false s1
      refine ⟨Invocation.pull p.2.image :: t2, ?_, ?_, ?_⟩
      · rw [ht2, hs1]; simp
      · intro inv hi
        rcases List.mem_cons.mp hi with rfl | hi
        · exact Or.inl ⟨p, List.mem_cons_self _ _, rfl⟩
        · rcases hall inv hi with ⟨sc, hm, he⟩ | hn | ⟨sc, hm, vols, he⟩
          · exact Or.inl ⟨sc, List.mem_cons_of_mem _ hm, he⟩
          · exact Or.inr (Or.inl hn)
          · exact Or.inr (Or.inr ⟨sc, List.mem_cons_of_mem _ hm, vols, he⟩)
      · intro sc hm
        rcases List.mem_cons.mp hm with rfl | hm
        · exact List.mem_cons_self _ _
        · exact List.mem_cons_of_mem _ (hpull sc hm)
    | ok u =>
      simp only [serviceLoop, hP]
      obtain ⟨tr, htr, hrall⟩ :=
        run_container_trace w ord p.2 true (mergeEnvOpt ei p.2.env) opts s1
      obtain ⟨r2, s2, hR⟩ :
          ∃ r2 s2, run_container w ord p.2 true (mergeEnvOpt ei p.2.env) opts s1 = (r2, s2) :=
        ⟨_, _, rfl⟩
      rw [hR] at htr
      have hassemble : ∀ (fl : Bool),
          ∃ t, ((serviceLoop w ord ei opts rest fl s2).2).trace = s.trace ++ t ∧
            (∀ inv ∈ t, (∃ sc ∈ p :: rest, inv = Invocation.pull sc.2.image) ∨
              (∃ n, inv = Invocation.volumeCreate n) ∨
              (∃ sc ∈ p :: rest, ∃ vols, inv = Invocation.run opts.privileged vols true opts.debug
                (ord (mergeEnvOpt ei sc.2.env)) sc.2.image)) ∧
            ∀ sc ∈ p :: rest, Invocation.pull sc.2.image ∈ t := by
        intro fl
        obtain ⟨t3, ht3, hall, hpull⟩ := ih fl s2
        refine ⟨Invocation.pull p.2.image :: (tr ++ t3), ?_, ?_, ?_⟩
        · rw [ht3, htr, hs1]; simp
        · intro inv hi
          rcases List.mem_cons.mp hi with rfl | hi
          · exact Or.inl ⟨p, List.mem_cons_self _ _, rfl⟩
          · rcases List.mem_append.mp hi with hi | hi
            · rcases hrall inv hi with hn | ⟨vols, he⟩
              · exact Or.inr (Or.inl hn)
              · exact Or.inr (Or.inr ⟨p, List.mem_cons_self _ _, vols, he⟩)
            · rcases hall inv hi with ⟨sc, hm, he⟩ | hn | ⟨sc, hm, vols, he⟩
              · exact Or.inl ⟨sc, List.mem_cons_of_mem _ hm, he⟩
              · exact Or.inr (Or.inl hn)
              · exact Or.inr (Or.inr ⟨sc, List.mem_cons_of_mem _ hm, vols, he⟩)
        · intro sc hm
          rcases List.mem_cons.mp hm with rfl | hm
          · exact List.mem_cons_self _ _
          · exact List.mem_cons_of_mem _ (List.mem_append.mpr (Or.inr (hpull sc hm)))
      cases r2 with
      | ok u2 =>
        simp only [hR]
        exact hassemble ok
      | error e2 =>
        simp only [hR]
        exact hassemble false

/-- The environment discipline C3 asserts of one invocation issued while
executing `job`: a main-container run carries the inherited environment
overlaid by the job's container environment and the job's image; a
service run carries the inherited environment overlaid by that same
service's own environment and that service's image; other invocations
carry no environment. -/
def envShape (ord : EnvMap → EnvMap) (ei : Option EnvMap) (job : Job) :
    Invocation → Prop
  | Invocation.run _ _ is_service _ envArgs image =>
      if is_service then
        ∃ sc ∈ job.services.getD [],
          envArgs = ord (mergeEnvOpt ei sc.2.env) ∧ image = sc.2.image
      else
        envArgs = ord (mergeEnvOpt ei job.container.env) ∧ image = job.container.image
  | _ => True

theorem do_job_trace (w : Nat → ExecResult) (ord : EnvMap → EnvMap) (name : String)
    (job : Job) (ei : Option EnvMap) (opts : WorkflowOptions) (s : RunState) :
    ∃ t, ((do_job w ord name job ei opts s).2).trace = s.trace ++ t ∧
      ∀ inv ∈ t, envShape ord ei job inv := by
  simp only [do_job]
  by_cases himg : job.container.image.length = 0
  · rw [if_pos himg]
    exact ⟨[], by simp, by simp⟩
  · rw [if_neg himg]
    obtain ⟨tA, htA, hAall, _⟩ :=
      serviceLoop_trace w ord ei opts (job.services.getD []) true s
    obtain ⟨okf, sA, hS⟩ :
        ∃ okf sA, serviceLoop w ord ei opts (job.services.getD []) true s = (okf, sA) :=
      ⟨_, _, rfl⟩
    rw [hS] at htA
    have hAshape : ∀ inv ∈ tA, envShape ord ei job inv := by
      intro inv hi
      rcases hAall inv hi with ⟨sc, hm, he⟩ | ⟨n, he⟩ | ⟨sc, hm, vols, he⟩
      · subst he; trivial
      · subst he; trivial
      · subst he
        exact ⟨sc, hm, rfl, rfl⟩
    simp only [hS]
    by_cases hok : okf = false
    · rw [if_pos hok]
      exact ⟨tA, htA, hAshape⟩
    · rw [if_neg hok]
      obtain ⟨rP, sB, hP⟩ :
          ∃ rP sB, prepare_image w job.container.image opts.dry_run sA = (rP, sB) :=
        ⟨_, _, rfl⟩
      have hsB : sB.trace = sA.trace ++ [Invocation.pull job.container.image] := by
        have := execCmd_trace w (Invocation.pull job.container.image) opts.dry_run sA
        unfold prepare_image at hP
        rw [hP] at this
        exact this
      cases rP with
      | error e =>
        simp only [hP]
        refine ⟨tA ++ [Invocation.pull job.container.image], ?_, ?_⟩
        · rw [hsB, htA, List.append_assoc]
        · intro inv hi
          rcases List.mem_append.mp hi with hi | hi
          · exact hAshape inv hi
          · rcases List.mem_singleton.mp hi with rfl
            trivial
      | ok u =>
        simp only [hP]
        obtain ⟨tR, htR, hRall⟩ :=
          run_container_trace w ord job.container false
            (mergeEnvOpt ei job.container.env) opts sB
        obtain ⟨rR, sC, hR⟩ :
            ∃ rR sC, run_container w ord job.container false
              (mergeEnvOpt ei job.container.env) opts sB = (rR, sC) := ⟨_, _, rfl⟩
        rw [hR] at htR
        have hfinal : sC.trace = s.trace ++ (tA ++ [Invocation.pull job.container.image] ++ tR) := by
          rw [htR, hsB, htA]
          simp
        have hshape : ∀ inv ∈ tA ++ [Invocation.pull job.container.image] ++ tR,
            envShape ord ei job inv := by
          intro inv hi
          rcases List.mem_append.mp hi with hi | hi
          · rcases List.mem_append.mp hi with hi | hi
            · exact hAshape inv hi
            · rcases List.mem_singleton.mp hi with rfl
              trivial
          · rcases hRall inv hi with ⟨n, he⟩ | ⟨vols, he⟩
            · subst he; trivial
            · subst he
              exact ⟨rfl, rfl⟩
        cases rR with
        | error e => simp only [hR]; exact ⟨_, hfinal, hshape⟩
        | ok u2 => simp only [hR]; exact ⟨_, hfinal, hshape⟩

/-- C3: looking up any key in the merged environment built by `do_job`
for a container yields the container's own value when it has one and the
inherited (workflow-level) value otherwise — container keys win — and
every container-run invocation `do_job` issues satisfies `envShape`: the
main run carries exactly the inherited env overlaid by the job's
container env, and each service run carries exactly the inherited env
overlaid by that service's own env (never the main container's, never
another service's). -/
theorem C3_environment_merging (w : Nat → ExecResult) (ord : EnvMap → EnvMap)
    (name : String) (job : Job) (ei : Option EnvMap) (opts : WorkflowOptions)
    (s : RunState) (res : Except String Unit) (s' : RunState) (k : String)
    (hei : envNodup (ei.getD []))
    (hrun : do_job w ord name job ei opts s = (res, s')) :
    (∀ ce : Option EnvMap, envNodup (ce.getD []) →
      listFind (mergeEnvOpt ei ce) k =
        (listFind (ce.getD []) k).or (listFind (ei.getD []) k)) ∧
    ∃ t, s'.trace = s.trace ++ t ∧ ∀ inv ∈ t, envShape ord ei job inv := by
  refine ⟨fun ce hce => listFind_mergeEnvOpt ei ce k hei hce, ?_⟩
  obtain ⟨t, ht, hall⟩ := do_job_trace w ord name job ei opts s
  rw [hrun] at ht
  exact ⟨t, ht, hall⟩

/-- A service container used by the witnesses. -/
def svcC : Container := { image := "sv", env := some [("B", "2")], volumes := none }

/-- A job with a container environment and one service. -/
def jobEnv : Job :=
  { container := { image := "img", env := some [("A", "1")], volumes := none },
    services := some [("s", svcC)], needs := none, continue_on_error := false }

/-- Witness for C3 at a concrete input. -/
theorem C3_witness :
    (∀ ce : Option EnvMap, envNodup (ce.getD []) →
      listFind (mergeEnvOpt (some [("W", "0")]) ce) "A" =
        (listFind (ce.getD []) "A").or
          (listFind ((some [("W", "0")] : Option EnvMap).getD []) "A")) ∧
    ∃ t, ((do_job wOk id "j" jobEnv (some [("W", "0")]) optsDry s0).2).trace =
        s0.trace ++ t ∧
      ∀ inv ∈ t, envShape id (some [("W", "0")]) jobEnv inv :=
  C3_environment_merging wOk id "j" jobEnv (some [("W", "0")]) optsDry s0
    (do_job wOk id "j" jobEnv (some [("W", "0")]) optsDry s0).1
    (do_job wOk id "j" jobEnv (some [("W", "0")]) optsDry s0).2
    "A" (by decide) rfl

/-- C7: when the main image is non-empty and the service loop reports a
failure (some service's preparation or startup failed), `do_job` fails
with an error naming the job, at exactly the state the service loop
left — before any main-container pull or run is constructed — and the
trace the service loop appended contains a pull invocation for every
declared service: the loop attempted them all. -/
theorem C7_services_best_effort (w : Nat → ExecResult) (ord : EnvMap → EnvMap)
    (name : String) (job : Job) (ei : Option EnvMap) (opts : WorkflowOptions)
    (s s1 : RunState)
    (himg : ¬job.container.image.length = 0)
    (hfail : serviceLoop w ord ei opts (job.services.getD []) true s = (false, s1)) :
    do_job w ord name job ei opts s =
      (Except.error ("Service container for job '" ++ name ++ "' failed"), s1) ∧
    ∃ t, s1.trace = s.trace ++ t ∧
      ∀ sc ∈ job.services.getD [], Invocation.pull sc.2.image ∈ t := by
  constructor
  · simp only [do_job, if_neg himg, hfail]
    rw [if_pos trivial]
  · obtain ⟨t, ht, _, hpull⟩ := serviceLoop_trace w ord ei opts (job.services.getD []) true s
    rw [hfail] at ht
    exact ⟨t, ht, hpull⟩

/-- A first service for the C7 witness. -/
def svcA : Container := { image := "sa", env := none, volumes := none }

/-- A second service for the C7 witness. -/
def svcB : Container := { image := "sb", env := none, volumes := none }

/-- A job with two services. -/
def jobTwoSvc : Job :=
  { container := { image := "img", env := none, volumes := none },
    services := some [("s1", svcA), ("s2", svcB)], needs := none,
    continue_on_error := false }

/-- The state the C7 witness's failing service loop ends in. -/
def sFail2 : RunState :=
  { trace := [Invocation.pull "sa", Invocation.pull "sb"], execCount := 2 }

/-- Witness for C7: under a world in which no process launches, both
service pulls fail, both are attempted (both pull invocations are in the
trace), and the job fails naming itself before any main-container
invocation. -/
theorem C7_witness :
    do_job wBoom id "j" jobTwoSvc none optsReal s0 =
      (Except.error ("Service container for job '" ++ "j" ++ "' failed"), sFail2) ∧
    ∃ t, sFail2.trace = s0.trace ++ t ∧
      ∀ sc ∈ jobTwoSvc.services.getD [], Invocation.pull sc.2.image ∈ t :=
  C7_services_best_effort wBoom id "j" jobTwoSvc none optsReal s0 sFail2
    (by decide) rfl

/-- Once the scheduler has moved past a job name (it occurs in no
remaining job), its entry in the status map never changes for the rest
of a run that completes. -/
theorem do_jobs_stable (w : Nat → ExecResult) (ord : EnvMap → EnvMap) (name : String) :
    ∀ (jobs : List (String × Job)) (st : StatusMap) (env : Option EnvMap)
      (opts : WorkflowOptions) (s : RunState) (st' : StatusMap) (s'' : RunState),
    name ∉ jobs.map Prod.fst →
    do_jobs w ord jobs st env opts s = (Except.ok st', s'') →
    listFind st' name = listFind st name := by
  intro jobs
  induction jobs with
  | nil =>
    intro st env opts s st' s'' _ hok
    simp only [do_jobs] at hok
    obtain ⟨h1, h2⟩ := Prod.mk.injEq .. ▸ hok
    cases h1
    rfl
  | cons p rest ih =>
    intro st env opts s st' s'' hname hok
    obtain ⟨n', j'⟩ := p
    simp only [List.map_cons, List.mem_cons, not_or] at hname
    obtain ⟨hne, hrest⟩ := hname
    simp only [do_jobs] at hok
    by_cases hskip : needsSkip (listInsert st n' JobStatus.NoStatus) j'.needs = true
    · rw [if_pos hskip] at hok
      rw [ih _ env opts s st' s'' hrest hok,
          listFind_listInsert_other _ _ _ _ hne, listFind_listInsert_other _ _ _ _ hne]
    · have hskipf : needsSkip (listInsert st n' JobStatus.NoStatus) j'.needs = false :=
        Bool.eq_false_iff.mpr hskip
      rw [hskipf] at hok
      simp only [Bool.false_eq_true, if_false] at hok
      obtain ⟨r, s1, hdo⟩ : ∃ r s1, do_job w ord n' j' env opts s = (r, s1) := ⟨_, _, rfl⟩
      rw [hdo] at hok
      cases r with
      | ok u =>
        rw [ih _ env opts _ st' s'' hrest hok,
            listFind_listInsert_other _ _ _ _ hne, listFind_listInsert_other _ _ _ _ hne]
      | error e =>
        by_cases hc : j'.continue_on_error = true
        · rw [hc] at hok
          simp only [if_true] at hok
          rw [ih _ env opts _ st' s'' hrest hok,
              listFind_listInsert_other _ _ _ _ hne, listFind_listInsert_other _ _ _ _ hne]
        · rw [Bool.eq_false_iff.mpr hc] at hok
          simp only [Bool.false_eq_true, if_false] at hok
          exact absurd hok (by simp)

/-- C8: the job at the head of the scheduling loop is first inserted as
`NoStatus` and, in the same iteration, re-inserted exactly once with
`visitStatus` — which is never `NoStatus` (it is `Skipped`, `Success` or
`Failed`) — and in any completing continuation of the run its entry
still holds that very status: it never changes again.  (The aborting
case discards the map, so the invariant is stated for the continuing
branches.) -/
theorem C8_status_lifecycle (w : Nat → ExecResult) (ord : EnvMap → EnvMap)
    (name : String) (job : Job) (rest : List (String × Job)) (st : StatusMap)
    (env : Option EnvMap) (opts : WorkflowOptions) (s : RunState)
    (hno : ¬(visitStatus w ord name job st env opts s = JobStatus.Failed ∧
      job.continue_on_error = false))
    (hrest : name ∉ rest.map Prod.fst) :
    (visitStatus w ord name job st env opts s ≠ JobStatus.NoStatus) ∧
    ∃ s', do_jobs w ord ((name, job) :: rest) st env opts s =
        do_jobs w ord rest
          (listInsert (listInsert st name JobStatus.NoStatus) name
            (visitStatus w ord name job st env opts s)) env opts s' ∧
      ∀ st' s'', do_jobs w ord rest
          (listInsert (listInsert st name JobStatus.NoStatus) name
            (visitStatus w ord name job st env opts s)) env opts s' =
            (Except.ok st', s'') →
        listFind st' name = some (visitStatus w ord name job st env opts s) := by
  by_cases hskip : needsSkip (listInsert st name JobStatus.NoStatus) job.needs = true
  · have hv : visitStatus w ord name job st env opts s = JobStatus.Skipped := by
      simp [visitStatus, hskip]
    refine ⟨by rw [hv]; simp, s, ?_, ?_⟩
    · rw [hv]
      simp only [do_jobs, hskip, if_true]
    · intro st' s'' hok
      rw [do_jobs_stable w ord name rest _ env opts _ st' s'' hrest hok,
          listFind_listInsert_self]
  · have hskipf : needsSkip (listInsert st name JobStatus.NoStatus) job.needs = false :=
      Bool.eq_false_iff.mpr hskip
    obtain ⟨r, s1, hdo⟩ : ∃ r s1, do_job w ord name job env opts s = (r, s1) := ⟨_, _, rfl⟩
    cases r with
    | ok u =>
      have hv : visitStatus w ord name job st env opts s = JobStatus.Success := by
        simp [visitStatus, hskipf, hdo]
      refine ⟨by rw [hv]; simp, (clean_job w job opts s1).2, ?_, ?_⟩
      · rw [hv]
        simp only [do_jobs, hskipf, Bool.false_eq_true, if_false, hdo]
      · intro st' s'' hok
        rw [do_jobs_stable w ord name rest _ env opts _ st' s'' hrest hok,
            listFind_listInsert_self]
    | error e =>
      have hv : visitStatus w ord name job st env opts s = JobStatus.Failed := by
        simp [visitStatus, hskipf, hdo]
      have hc : job.continue_on_error = true := by
        rcases Bool.eq_false_or_eq_true job.continue_on_error with ht | hf
        · exact ht
        · exact absurd ⟨hv, hf⟩ hno
      refine ⟨by rw [hv]; simp, (clean_job w job opts s1).2, ?_, ?_⟩
      · rw [hv]
        simp only [do_jobs, hskipf, Bool.false_eq_true, if_false, hdo, hc, if_true]
      · intro st' s'' hok
        rw [do_jobs_stable w ord name rest _ env opts _ st' s'' hrest hok,
            listFind_listInsert_self]

/-- Witness for C8: a plain dry-run job; its visit status is `Success`
and the completed run's map holds it. -/
theorem C8_witness :
    (visitStatus wOk id "a" jobImg [] none optsDry s0 ≠ JobStatus.NoStatus) ∧
    ∃ s', do_jobs wOk id [("a", jobImg)] [] none optsDry s0 =
        do_jobs wOk id []
          (listInsert (listInsert [] "a" JobStatus.NoStatus) "a"
            (visitStatus wOk id "a" jobImg [] none optsDry s0)) none optsDry s' ∧
      ∀ st' s'', do_jobs wOk id []
          (listInsert (listInsert [] "a" JobStatus.NoStatus) "a"
            (visitStatus wOk id "a" jobImg [] none optsDry s0)) none optsDry s' =
            (Except.ok st', s'') →
        listFind st' "a" = some (visitStatus wOk id "a" jobImg [] none optsDry s0) :=
  C8_status_lifecycle wOk id "a" jobImg [] [] none optsDry s0 (by decide) (by decide)

/-! Order-insensitivity machinery for C6: two runs whose environment
enumeration oracles are permutations of one another construct the same
invocations up to the order of the env arguments in each run command. -/

/-- Equality of invocations up to the enumeration order of the
`--env=k=v` arguments of a `run` command. -/
def InvEquiv : Invocation → Invocation → Prop
  | Invocation.run p1 v1 i1 d1 e1 im1, Invocation.run p2 v2 i2 d2 e2 im2 =>
      p1 = p2 ∧ v1 = v2 ∧ i1 = i2 ∧ d1 = d2 ∧ e1.Perm e2 ∧ im1 = im2
  | a, b => a = b

/-- Pointwise `InvEquiv` on traces. -/
def TraceEquiv : List Invocation → List Invocation → Prop
  | [], [] => True
  | a :: t1, b :: t2 => InvEquiv a b ∧ TraceEquiv t1 t2
  | _, _ => False

/-- Run-state equivalence: equivalent traces and equal execution counts. -/
def SEquiv (s1 s2 : RunState) : Prop :=
  TraceEquiv s1.trace s2.trace ∧ s1.execCount = s2.execCount

theorem invEquiv_refl : ∀ i : Invocation, InvEquiv i i := by
  intro i
  cases i <;> simp [InvEquiv]

theorem traceEquiv_refl : ∀ t : List Invocation, TraceEquiv t t := by
  intro t
  induction t with
  | nil => trivial
  | cons a t ih => exact ⟨invEquiv_refl a, ih⟩

theorem sEquiv_refl (s : RunState) : SEquiv s s := ⟨traceEquiv_refl _, Eq.refl _⟩

theorem TraceEquiv.append : ∀ {t1 t2 u1 u2 : List Invocation},
    TraceEquiv t1 t2 → TraceEquiv u1 u2 → TraceEquiv (t1 ++ u1) (t2 ++ u2) := by
  intro t1
  induction t1 with
  | nil =>
    intro t2 u1 u2 h hu
    cases t2 with
    | nil => exact hu
    | cons b tb => exact absurd h (by simp [TraceEquiv])
  | cons a ta ih =>
    intro t2 u1 u2 h hu
    cases t2 with
    | nil => exact absurd h (by simp [TraceEquiv])
    | cons b tb => exact ⟨h.1, ih h.2 hu⟩

theorem execCmd_equiv (w : Nat → ExecResult) (i1 i2 : Invocation) (dry : Bool)
    (s1 s2 : RunState) (hi : InvEquiv i1 i2) (hs : SEquiv s1 s2) :
    (execCmd w i1 dry s1).1 = (execCmd w i2 dry s2).1 ∧
    SEquiv (execCmd w i1 dry s1).2 (execCmd w i2 dry s2).2 := by
  have happ : TraceEquiv (s1.trace ++ [i1]) (s2.trace ++ [i2]) :=
    TraceEquiv.append hs.1 ⟨hi, trivial⟩
  unfold execCmd
  cases dry with
  | true =>
    rw [if_pos rfl, if_pos rfl]
    exact ⟨rfl, happ, hs.2⟩
  | false =>
    rw [if_neg (by simp), if_neg (by simp), hs.2]
    cases w s2.execCount with
    | launchFailure e => exact ⟨rfl, happ, rfl⟩
    | exited b => exact ⟨rfl, happ, rfl⟩

theorem volumeLoop_equiv (w : Nat → ExecResult) (dry : Bool) :
    ∀ (vs : List String) (s1 s2 : RunState), SEquiv s1 s2 →
    (volumeLoop w dry vs s1).1 = (volumeLoop w dry vs s2).1 ∧
    SEquiv (volumeLoop w dry vs s1).2 (volumeLoop w dry vs s2).2 := by
  intro vs
  induction vs with
  | nil => intro s1 s2 hs; exact ⟨rfl, hs⟩
  | cons v rest ih =>
    intro s1 s2 hs
    obtain ⟨r1, s1', hE1⟩ :
        ∃ r s', execCmd w (Invocation.volumeCreate ((v.splitOn ":").headD "")) dry s1 = (r, s') :=
      ⟨_, _, rfl⟩
    obtain ⟨r2, s2', hE2⟩ :
        ∃ r s', execCmd w (Invocation.volumeCreate ((v.splitOn ":").headD "")) dry s2 = (r, s') :=
      ⟨_, _, rfl⟩
    have hE := execCmd_equiv w (Invocation.volumeCreate ((v.splitOn ":").headD ""))
      (Invocation.volumeCreate ((v.splitOn ":").headD "")) dry s1 s2 (invEquiv_refl _) hs
    rw [hE1, hE2] at hE
    obtain ⟨hr, hs'⟩ := hE
    subst hr
    cases r1 with
    | error e =>
      simp only [volumeLoop, hE1, hE2]
      exact ⟨trivial, hs'⟩
    | ok u =>
      simp only [volumeLoop, hE1, hE2]
      obtain ⟨q1, t1, hV1⟩ : ∃ q t, volumeLoop w dry rest s1' = (q, t) := ⟨_, _, rfl⟩
      obtain ⟨q2, t2, hV2⟩ : ∃ q t, volumeLoop w dry rest s2' = (q, t) := ⟨_, _, rfl⟩
      have hV := ih s1' s2' hs'
      rw [hV1, hV2] at hV
      obtain ⟨hq, ht⟩ := hV
      subst hq
      cases q1 with
      | error e =>
        simp only [hV1, hV2]
        exact ⟨trivial, ht⟩
      | ok vols =>
        simp only [hV1, hV2]
        exact ⟨trivial, ht⟩

theorem run_container_equiv (w : Nat → ExecResult) (ord1 ord2 : EnvMap → EnvMap)
    (c : Container) (is_service : Bool) (env : EnvMap) (opts : WorkflowOptions)
    (s1 s2 : RunState) (hp : (ord1 env).Perm (ord2 env)) (hs : SEquiv s1 s2) :
    (run_container w ord1 c is_service env opts s1).1 =
      (run_container w ord2 c is_service env opts s2).1 ∧
    SEquiv (run_container w ord1 c is_service env opts s1).2
      (run_container w ord2 c is_service env opts s2).2 := by
  obtain ⟨q1, t1, hV1⟩ :
      ∃ q t, volumeLoop w opts.dry_run (c.volumes.getD []) s1 = (q, t) := ⟨_, _, rfl⟩
  obtain ⟨q2, t2, hV2⟩ :
      ∃ q t, volumeLoop w opts.dry_run (c.volumes.getD []) s2 = (q, t) := ⟨_, _, rfl⟩
  have hV := volumeLoop_equiv w opts.dry_run (c.volumes.getD []) s1 s2 hs
  rw [hV1, hV2] at hV
  obtain ⟨hq, ht⟩ := hV
  subst hq
  cases q1 with
  | error e =>
    simp only [run_container, hV1, hV2]
    exact ⟨trivial, ht⟩
  | ok vols =>
    simp only [run_container, hV1, hV2]
    exact execCmd_equiv w _ _ opts.dry_run t1 t2 ⟨rfl, rfl, rfl, rfl, hp, rfl⟩ ht

theorem clean_image_equiv (w : Nat → ExecResult) (img : String)
    (opts : WorkflowOptions) (s1 s2 : RunState) (hs : SEquiv s1 s2) :
    (clean_image w img opts s1).1 = (clean_image w img opts s2).1 ∧
    SEquiv (clean_image w img opts s1).2 (clean_image w img opts s2).2 := by
  unfold clean_image
  by_cases hd : opts.debug = true
  · rw [if_pos hd, if_pos hd]
    exact ⟨rfl, hs⟩
  · rw [if_neg hd, if_neg hd]
    exact execCmd_equiv w _ _ opts.dry_run s1 s2 (invEquiv_refl _) hs

theorem cleanStep_equiv (w : Nat → ExecResult) (opts : WorkflowOptions) :
    ∀ (svcs : List (String × Container)) (s1 s2 : RunState), SEquiv s1 s2 →
    SEquiv (svcs.foldl (cleanServiceStep w opts) s1)
      (svcs.foldl (cleanServiceStep w opts) s2) := by
  intro svcs
  induction svcs with
  | nil => intro s1 s2 hs; exact hs
  | cons p rest ih =>
    intro s1 s2 hs
    simp only [List.foldl_cons]
    apply ih
    unfold cleanServiceStep
    have h2 : SEquiv ((stop_container w p.2.image opts s1).2)
        ((stop_container w p.2.image opts s2).2) :=
      (execCmd_equiv w (Invocation.stop p.2.image) (Invocation.stop p.2.image)
        opts.dry_run s1 s2 (invEquiv_refl _) hs).2
    exact (clean_image_equiv w p.2.image opts _ _ h2).2

theorem clean_job_equiv (w : Nat → ExecResult) (job : Job) (opts : WorkflowOptions)
    (s1 s2 : RunState) (hs : SEquiv s1 s2) :
    (clean_job w job opts s1).1 = (clean_job w job opts s2).1 ∧
    SEquiv (clean_job w job opts s1).2 (clean_job w job opts s2).2 := by
  simp only [clean_job]
  exact clean_image_equiv w _ opts _ _
    (cleanStep_equiv w opts (job.services.getD []) s1 s2 hs)

theorem serviceLoop_equiv (w : Nat → ExecResult) (ord1 ord2 : EnvMap → EnvMap)
    (ei : Option EnvMap) (opts : WorkflowOptions)
    (hord : ∀ l, (ord1 l).Perm (ord2 l)) :
    ∀ (svcs : List (String × Container)) (ok : Bool) (s1 s2 : RunState), SEquiv s1 s2 →
    (serviceLoop w ord1 ei opts svcs ok s1).1 =
      (serviceLoop w ord2 ei opts svcs ok s2).1 ∧
    SEquiv (serviceLoop w ord1 ei opts svcs ok s1).2
      (serviceLoop w ord2 ei opts svcs ok s2).2 := by
  intro svcs
  induction svcs with
  | nil => intro ok s1 s2 hs; exact ⟨rfl, hs⟩
  | cons p rest ih =>
    intro ok s1 s2 hs
    obtain ⟨r1, s1', hP1⟩ :
        ∃ r s', prepare_image w p.2.image opts.dry_run s1 = (r, s') := ⟨_, _, rfl⟩
    obtain ⟨r2, s2', hP2⟩ :
        ∃ r s', prepare_image w p.2.image opts.dry_run s2 = (r, s') := ⟨_, _, rfl⟩
    have hP := execCmd_equiv w (Invocation.pull p.2.image) (Invocation.pull p.2.image)
      opts.dry_run s1 s2 (invEquiv_refl _) hs
    have hP1e := hP1
    have hP2e := hP2
    unfold prepare_image at hP1e hP2e
    rw [hP1e, hP2e] at hP
    obtain ⟨hr, hs'⟩ := hP
    subst hr
    cases r1 with
    | error e =>
      simp only [serviceLoop, hP1, hP2]
      exact ih false s1' s2' hs'
    | ok u =>
      simp only [serviceLoop, hP1, hP2]
      obtain ⟨q1, t1, hR1⟩ :
          ∃ q t, run_container w ord1 p.2 true (mergeEnvOpt ei p.2.env) opts s1' = (q, t) :=
        ⟨_, _, rfl⟩
      obtain ⟨q2, t2, hR2⟩ :
          ∃ q t, run_container w ord2 p.2 true (mergeEnvOpt ei p.2.env) opts s2' = (q, t) :=
        ⟨_, _, rfl⟩
      have hR := run_container_equiv w ord1 ord2 p.2 true (mergeEnvOpt ei p.2.env)
        opts s1' s2' (hord _) hs'
      rw [hR1, hR2] at hR
      obtain ⟨hq, ht⟩ := hR
      subst hq
      cases q1 with
      | ok u2 =>
        simp only [hR1, hR2]
        exact ih ok t1 t2 ht
      | error e2 =>
        simp only [hR1, hR2]
        exact ih false t1 t2 ht

theorem do_job_equiv (w : Nat → ExecResult) (ord1 ord2 : EnvMap → EnvMap)
    (name : String) (job : Job) (ei : Option EnvMap) (opts : WorkflowOptions)
    (hord : ∀ l, (ord1 l).Perm (ord2 l)) (s1 s2 : RunState) (hs : SEquiv s1 s2) :
    (do_job w ord1 name job ei opts s1).1 = (do_job w ord2 name job ei opts s2).1 ∧
    SEquiv (do_job w ord1 name job ei opts s1).2
      (do_job w ord2 name job ei opts s2).2 := by
  simp only [do_job]
  by_cases himg : job.container.image.length = 0
  · rw [if_pos himg, if_pos himg]
    exact ⟨rfl, hs⟩
  · rw [if_neg himg, if_neg himg]
    obtain ⟨ok1, sA, hS1⟩ :
        ∃ q t, serviceLoop w ord1 ei opts (job.services.getD []) true s1 = (q, t) :=
      ⟨_, _, rfl⟩
    obtain ⟨ok2, sB, hS2⟩ :
        ∃ q t, serviceLoop w ord2 ei opts (job.services.getD []) true s2 = (q, t) :=
      ⟨_, _, rfl⟩
    have hS := serviceLoop_equiv w ord1 ord2 ei opts hord (job.services.getD []) true s1 s2 hs
    rw [hS1, hS2] at hS
    obtain ⟨hok, hs'⟩ := hS
    subst hok
    simp only [hS1, hS2]
    by_cases hol : ok1 = false
    · rw [if_pos hol, if_pos hol]
      exact ⟨rfl, hs'⟩
    · rw [if_neg hol, if_neg hol]
      obtain ⟨r1, sC, hP1⟩ :
          ∃ r s', prepare_image w job.container.image opts.dry_run sA = (r, s') := ⟨_, _, rfl⟩
      obtain ⟨r2, sD, hP2⟩ :
          ∃ r s', prepare_image w job.container.image opts.dry_run sB = (r, s') := ⟨_, _, rfl⟩
      have hP := execCmd_equiv w (Invocation.pull job.container.image)
        (Invocation.pull job.container.image) opts.dry_run sA sB (invEquiv_refl _) hs'
      have hP1e := hP1
      have hP2e := hP2
      unfold prepare_image at hP1e hP2e
      rw [hP1e, hP2e] at hP
      obtain ⟨hr, hs''⟩ := hP
      subst hr
      cases r1 with
      | error e =>
        simp only [hP1, hP2]
        exact ⟨trivial, hs''⟩
      | ok u =>
        simp only [hP1, hP2]
        obtain ⟨q1, t1, hR1⟩ :
            ∃ q t, run_container w ord1 job.container false
              (mergeEnvOpt ei job.container.env) opts sC = (q, t) := ⟨_, _, rfl⟩
        obtain ⟨q2, t2, hR2⟩ :
            ∃ q t, run_container w ord2 job.container false
              (mergeEnvOpt ei job.container.env) opts sD = (q, t) := ⟨_, _, rfl⟩
        have hR := run_container_equiv w ord1 ord2 job.container false
          (mergeEnvOpt ei job.container.env) opts sC sD (hord _) hs''
        rw [hR1, hR2] at hR
        obtain ⟨hq, ht⟩ := hR
        subst hq
        cases q1 with
        | error e2 =>
          simp only [hR1, hR2]
          exact ⟨trivial, ht⟩
        | ok u2 =>
          simp only [hR1, hR2]
          exact ⟨trivial, ht⟩

theorem do_jobs_equiv (w : Nat → ExecResult) (ord1 ord2 : EnvMap → EnvMap)
    (hord : ∀ l, (ord1 l).Perm (ord2 l)) :
    ∀ (jobs : List (String × Job)) (st : StatusMap) (env : Option EnvMap)
      (opts : WorkflowOptions) (s1 s2 : RunState), SEquiv s1 s2 →
    (do_jobs w ord1 jobs st env opts s1).1 = (do_jobs w ord2 jobs st env opts s2).1 ∧
    SEquiv (do_jobs w ord1 jobs st env opts s1).2
      (do_jobs w ord2 jobs st env opts s2).2 := by
  intro jobs
  induction jobs with
  | nil => intro st env opts s1 s2 hs; exact ⟨rfl, hs⟩
  | cons p rest ih =>
    intro st env opts s1 s2 hs
    obtain ⟨n', j'⟩ := p
    simp only [do_jobs]
    by_cases hskip : needsSkip (listInsert st n' JobStatus.NoStatus) j'.needs = true
    · rw [if_pos hskip, if_pos hskip]
      exact ih _ env opts s1 s2 hs
    · rw [if_neg hskip, if_neg hskip]
      obtain ⟨r1, sA, hD1⟩ : ∃ r s', do_job w ord1 n' j' env opts s1 = (r, s') := ⟨_, _, rfl⟩
      obtain ⟨r2, sB, hD2⟩ : ∃ r s', do_job w ord2 n' j' env opts s2 = (r, s') := ⟨_, _, rfl⟩
      have hD := do_job_equiv w ord1 ord2 n' j' env opts hord s1 s2 hs
      rw [hD1, hD2] at hD
      obtain ⟨hr, hs'⟩ := hD
      subst hr
      cases r1 with
      | ok u =>
        simp only [hD1, hD2]
        exact ih _ env opts _ _ (clean_job_equiv w j' opts _ _ hs').2
      | error e =>
        simp only [hD1, hD2]
        by_cases hc : j'.continue_on_error = true
        · rw [hc]
          simp only [if_true]
          exact ih _ env opts _ _ (clean_job_equiv w j' opts _ _ hs').2
        · rw [Bool.eq_false_iff.mpr hc]
          simp only [Bool.false_eq_true, if_false]
          exact ⟨trivial, hs'⟩

/-- The reversed enumeration oracle used by the C6 counterexample: the
same merged environment enumerated back to front, as a Rust `HashMap`
with a different random seed may do. -/
def ordRev : EnvMap → EnvMap := fun l => l.reverse

/-- A job whose container carries two environment entries. -/
def jobTwoEnv : Job :=
  { container := { image := "img", env := some [("A", "1"), ("B", "2")], volumes := none },
    services := none, needs := none, continue_on_error := false }

/-- Counterexample to C6: two dry runs of the same one-job workflow,
differing only in the iteration order the runtime's `HashMap` happened
to use for the merged environment — an order the Rust standard library
leaves unspecified and reseeds per map — log different invocation
sequences: the `--env` arguments of the run command come out in
different orders.  The sequence is therefore not a function of the
workflow alone, and the claimed identity (including identical `--env`
argument order) fails. -/
theorem C6_counterexample :
    ((do_jobs wOk id [("a", jobTwoEnv)] [] none optsDry s0).2).trace ≠
      ((do_jobs wOk ordRev [("a", jobTwoEnv)] [] none optsDry s0).2).trace := by
  decide

/-- C6 amended: a dry run's invocation sequence is fully determined by
the workflow, the options and the environment enumeration order the
runtime happens to use: two runs from the same start whose enumeration
oracles agree up to permutation return the same result and log traces
that are identical invocation by invocation up to the order of the
`--env` arguments within each run command, with equal execution counts.
No other state is carried between runs; only that enumeration order —
unspecified for a Rust `HashMap` — can differ. -/
theorem C6_dry_run_reproducible (w : Nat → ExecResult) (ord1 ord2 : EnvMap → EnvMap)
    (jobs : List (String × Job)) (st : StatusMap) (env : Option EnvMap)
    (opts : WorkflowOptions) (s : RunState)
    (hord : ∀ l, (ord1 l).Perm (ord2 l)) (_hdry : opts.dry_run = true) :
    (do_jobs w ord1 jobs st env opts s).1 = (do_jobs w ord2 jobs st env opts s).1 ∧
    TraceEquiv ((do_jobs w ord1 jobs st env opts s).2).trace
      ((do_jobs w ord2 jobs st env opts s).2).trace ∧
    ((do_jobs w ord1 jobs st env opts s).2).execCount =
      ((do_jobs w ord2 jobs st env opts s).2).execCount := by
  have h := do_jobs_equiv w ord1 ord2 hord jobs st env opts s s (sEquiv_refl s)
  exact ⟨h.1, h.2.1, h.2.2⟩

/-- Witness for C6's amended theorem: the two counterexample runs are
equivalent up to the `--env` argument order. -/
theorem C6_witness :
    (do_jobs wOk id [("a", jobTwoEnv)] [] none optsDry s0).1 =
      (do_jobs wOk ordRev [("a", jobTwoEnv)] [] none optsDry s0).1 ∧
    TraceEquiv ((do_jobs wOk id [("a", jobTwoEnv)] [] none optsDry s0).2).trace
      ((do_jobs wOk ordRev [("a", jobTwoEnv)] [] none optsDry s0).2).trace ∧
    ((do_jobs wOk id [("a", jobTwoEnv)] [] none optsDry s0).2).execCount =
      ((do_jobs wOk ordRev [("a", jobTwoEnv)] [] none optsDry s0).2).execCount :=
  C6_dry_run_reproducible wOk id ordRev [("a", jobTwoEnv)] [] none optsDry s0
    (fun l => (List.reverse_perm l).symm) rfl
